import Mathlib

/-!
Verification development for the ELMFIRE validation-engine helpers
(landscape_validation_helpers.py of the Tubbs-fire validation case).

Modelling conventions:
* A float cell of a numpy masked array is `Option ℚ`: `some v` is a finite
  value, `none` is NaN / masked / no-data.  All comparisons the code performs
  on floats are order comparisons on finite values, so rationals are exact.
* A NaN result (np.nan) is `Option.none`.
* Timestamps are minutes (or seconds) since the Unix epoch as `ℤ`/`ℚ`;
  the calendar and US-Pacific daylight-saving arithmetic performed by the
  external zoneinfo / pandas libraries is modelled by `daysFromCivil`,
  `laIsDST` and friends below, following the IANA rules for
  America/Los_Angeles (post-2007 US rule: DST from the second Sunday of
  March 02:00 to the first Sunday of November 02:00 local time).
* External geometry routines (shapely concave/convex hull, buffer,
  rasterio rasterize) are not part of the repository; where a claim is
  about repository logic around such a call, the call result is a
  parameter of the embedded function.
-/

/-! ### Grids and the simulated burn mask (calc_cohen_kappa_for_case, lines 496 to 505) -/

/-- A time-of-arrival grid: rows of cells, each cell a finite arrival value or no-data. -/
abbrev ToaGrid := List (List (Option ℚ))

/-- Validity mask of the grid: a cell is valid when its value is finite (source: np.isfinite and not masked). -/
def validMask (g : ToaGrid) : List (List Bool) :=
  g.map (fun row => row.map Option.isSome)

/-- Per-cell burn test of the scorer: the code leaves the mask all zero unless
time_sec is positive, and otherwise marks valid cells with arr less or equal
time_sec and arr strictly positive. -/
def cellBurnt (timeSec : ℚ) (c : Option ℚ) : Bool :=
  if 0 < timeSec then
    match c with
    | some v => decide (v ≤ timeSec) && decide (0 < v)
    | none => false
  else false

/-- Simulated binary burn mask at a given elapsed time (source variable burnt). -/
def burntMask (g : ToaGrid) (timeSec : ℚ) : List (List Bool) :=
  g.map (fun row => row.map (cellBurnt timeSec))

/-- Arrival values of the burned cells, row-major (source expression arr[mask]). -/
def burnedVals (g : ToaGrid) (timeSec : ℚ) : List ℚ :=
  g.flatten.filterMap (fun c =>
    c.bind (fun v => if cellBurnt timeSec (some v) then some v else none))

/-- Realized simulated cutoff: the maximum arrival value among burned cells,
none (NaN) when no cell is burned (source: np.nanmax over arr[mask], guarded by mask.any()). -/
def simTimeRealized (g : ToaGrid) (timeSec : ℚ) : Option ℚ :=
  match burnedVals g timeSec with
  | [] => none
  | v :: vs => some (vs.foldl max v)

/-- Restriction of a flattened binary mask to the valid cells,
row-major (source expressions burnt[valid] and viirs_bin[valid]). -/
def maskedLabels (m : List (List Bool)) (valid : List (List Bool)) : List Bool :=
  (m.flatten.zip valid.flatten).filterMap (fun p => if p.2 then some p.1 else none)

/-! ### Cohen kappa (sklearn cohen_kappa_score, modelled from its unweighted
definition: kappa = (po - pe) / (1 - pe) over the confusion matrix, NaN when
the denominator vanishes) and the single-class guard of the scorer. -/

/-- Number of matched positions carrying the label pair (a, b). -/
def countPair (yo ys : List Bool) (a b : Bool) : ℕ :=
  ((yo.zip ys).filter (fun p => p.1 == a && p.2 == b)).length

/-- Number of compared samples. -/
def kappaN (yo ys : List Bool) : ℕ := (yo.zip ys).length

/-- Observed agreement po. -/
def kappaPo (yo ys : List Bool) : ℚ :=
  ((countPair yo ys true true + countPair yo ys false false : ℕ) : ℚ) / (kappaN yo ys : ℚ)

/-- Chance agreement pe from the marginal counts. -/
def kappaPe (yo ys : List Bool) : ℚ :=
  ((yo.count true : ℚ) * (ys.count true : ℚ) + (yo.count false : ℚ) * (ys.count false : ℚ))
    / ((kappaN yo ys : ℚ) * (kappaN yo ys : ℚ))

/-- Modelled from the sklearn unweighted Cohen kappa: (po - pe) / (1 - pe),
none standing for the NaN produced by a vanishing denominator or empty input. -/
def cohenKappaScore (yo ys : List Bool) : Option ℚ :=
  if kappaN yo ys = 0 then none
  else if kappaPe yo ys = 1 then none
  else some ((kappaPo yo ys - kappaPe yo ys) / (1 - kappaPe yo ys))

/-- Errors raised by the numpy and sklearn calls inside the guard: the
ValueError of a zero-size reduction (max or min of an empty vector), and the
ValueError with which the score call rejects inconsistent sample lengths. -/
inductive ScoreErr where
  | emptyReduction
  | lengthMismatch
deriving DecidableEq

/-- Single-class test of the guard (source: max equals min over a label
vector, via the numpy reductions); a zero-size reduction raises, so the empty
vector is an error, not a vacuous truth. -/
def isSingleClass (l : List Bool) : Except ScoreErr Bool :=
  match l with
  | [] => Except.error ScoreErr.emptyReduction
  | b :: bs =>
    Except.ok ((bs.foldl (fun x y => x || y) b) == (bs.foldl (fun x y => x && y) b))

/-- Recorded kappa of the scorer (source lines 511 to 517): the guard reduces
the simulated vector first, short-circuits the observed reductions when the
simulated vector is not single-class, records NaN when both vectors are
single-class, and otherwise calls the sklearn score, which itself rejects
inconsistent sample lengths; any raised error propagates. -/
def recordedKappa (yObs ySim : List Bool) : Except ScoreErr (Option ℚ) :=
  match isSingleClass ySim with
  | Except.error e => Except.error e
  | Except.ok sSim =>
    if sSim then
      match isSingleClass yObs with
      | Except.error e => Except.error e
      | Except.ok sObs =>
        if sObs then Except.ok none
        else if yObs.length = ySim.length then Except.ok (cohenKappaScore yObs ySim)
        else Except.error ScoreErr.lengthMismatch
    else if yObs.length = ySim.length then Except.ok (cohenKappaScore yObs ySim)
    else Except.error ScoreErr.lengthMismatch

/-! ### The skill scorer (calc_cohen_kappa_for_case) -/

/-- A hull as the scorer consumes it: its key timestamp (epoch seconds, UTC)
and its rasterization onto the reference grid.  Rasterization is performed by
the external rasterio rasterize call, so its result is carried as data. -/
structure ObsHull where
  key : ℚ
  raster : List (List Bool)

/-- Shape of a grid as numpy reports it for the rectangular arrays in use. -/
def gridShape (g : ToaGrid) : ℕ × ℕ :=
  (g.length, (g.headD []).length)

/-- Errors the scorer can raise: the grid-mismatch ValueError carrying both
shapes, and a library ValueError escaping the per-cohort loop. -/
inductive CaseErr where
  | gridMismatch (toaShape refShape : ℕ × ℕ)
  | valueError (e : ScoreErr)
deriving DecidableEq

/-- One per-cohort output record: kappa, realized simulated cutoff, observed elapsed seconds
(the source appends these to three parallel lists in lockstep; a record list is the same data). -/
structure SkillRecord where
  kappa : Option ℚ
  timeSimu : Option ℚ
  timeViirs : ℚ
deriving DecidableEq

/-- Per-hull body of the scorer loop (source lines 479 to 517): builds the
simulated mask and both label vectors and records kappa, realized cutoff and
elapsed seconds; an error raised by the guard propagates. -/
def perHullRecord (g : ToaGrid) (t0 : ℚ) (h : ObsHull) : Except ScoreErr SkillRecord :=
  match recordedKappa (maskedLabels h.raster (validMask g))
      (maskedLabels (burntMask g (h.key - t0)) (validMask g)) with
  | Except.error e => Except.error e
  | Except.ok k => Except.ok ⟨k, simTimeRealized g (h.key - t0), h.key - t0⟩

/-- The scorer loop over the sorted hulls: the first raised error aborts the
whole call, returning no records at all. -/
def scoreHulls (g : ToaGrid) (t0 : ℚ) : List ObsHull → Except ScoreErr (List SkillRecord)
  | [] => Except.ok []
  | h :: hs =>
    match perHullRecord g t0 h with
    | Except.error e => Except.error e
    | Except.ok r =>
      match scoreHulls g t0 hs with
      | Except.error e => Except.error e
      | Except.ok rs => Except.ok (r :: rs)

/-- The scorer: checks the grid shapes, then emits one record per hull in
ascending key order (source lines 441 to 519); an error raised inside the
loop aborts the call with no output. -/
def calc_cohen_kappa_for_case (g : ToaGrid) (refShape : ℕ × ℕ) (hulls : List ObsHull)
    (t0 : ℚ) : Except CaseErr (List SkillRecord) :=
  if gridShape g ≠ refShape then
    Except.error (CaseErr.gridMismatch (gridShape g) refShape)
  else
    match scoreHulls g t0 (List.insertionSort (fun a b => a.key ≤ b.key) hulls) with
    | Except.error e => Except.error (CaseErr.valueError e)
    | Except.ok out => Except.ok out

/-! ### Burn-area history from a TOA raster (burn_area_history_from_toa, exact mode) -/

/-- Running cumulative sum with an accumulator (source: np.cumsum over the group counts). -/
def cumsumFrom (acc : ℕ) : List ℕ → List ℕ
  | [] => []
  | c :: cs => (acc + c) :: cumsumFrom (acc + c) cs

/-- Scale applied to pixel counts: the pixel area when given and truthy, else 1
(Python truthiness makes a zero pixel area fall back to 1). -/
def pixelScale (pixelArea : Option ℚ) : ℚ :=
  match pixelArea with
  | none => 1
  | some a => if a = 0 then 1 else a

/-- Finite arrival values of the raster, sorted ascending (source: vals after sort). -/
def toaVals (cells : List (Option ℚ)) : List ℚ :=
  List.insertionSort (· ≤ ·) (cells.filterMap id)

/-- Sorted values with negatives and zeros dropped (source: vals[vals > 0]). -/
def toaPos (cells : List (Option ℚ)) : List ℚ :=
  (toaVals cells).filter (fun v => decide (0 < v))

/-- Distinct arrival values in ascending order (source: np.unique values). -/
def toaUnique (cells : List (Option ℚ)) : List ℚ :=
  (toaPos cells).dedup

/-- Multiplicity of each distinct arrival value (source: np.unique counts). -/
def toaCounts (cells : List (Option ℚ)) : List ℕ :=
  (toaUnique cells).map (fun t => (toaPos cells).count t)

/-- Cumulative burned-pixel counts (source: np.cumsum of counts). -/
def toaCum (cells : List (Option ℚ)) : List ℕ :=
  cumsumFrom 0 (toaCounts cells)

/-- Exact-mode burn-area history: finite values are collected, sorted, negatives
and zeros dropped, then one knot per distinct arrival value with cumulative
counts and areas (source lines 356 to 404; the two early returns both denote
the empty curve). -/
def burn_area_history_from_toa (cells : List (Option ℚ)) (pixelArea : Option ℚ) :
    List ℚ × List ℕ × List ℚ :=
  if (cells.filterMap id).isEmpty then ([], [], [])
  else if (toaPos cells).isEmpty then ([], [], [])
  else
    (toaUnique cells, toaCum cells,
      (toaCum cells).map (fun c : ℕ => (c : ℚ) * pixelScale pixelArea))

/-! ### Calendar and timezone model (for _parse_start_to_utc and add_viirs_obstime).
The date arithmetic below models the proleptic Gregorian calendar used by
pandas and the IANA America/Los_Angeles daylight rules used by zoneinfo. -/

/-- A naive (zone-free) date and time as parsed from the start-time string. -/
structure NaiveDT where
  year : ℤ
  month : ℤ
  day : ℤ
  hour : ℤ
  minute : ℤ
deriving DecidableEq

/-- Day count of the first day of the given month relative to 1970-01-01,
with the day-of-month contribution split off additively. -/
def civilBase (y m : ℤ) : ℤ :=
  let y2 := if m ≤ 2 then y - 1 else y
  let era := (if 0 ≤ y2 then y2 else y2 - 399) / 400
  let yoe := y2 - era * 400
  let mp := (m + 9) % 12
  era * 146097 + yoe * 365 + yoe / 4 - yoe / 100 + (153 * mp + 2) / 5 - 1 - 719468

/-- Days since 1970-01-01 of a civil date (proleptic Gregorian). -/
def daysFromCivil (y m d : ℤ) : ℤ := civilBase y m + d

/-- Day of week with Sunday as 0 (1970-01-01 was a Thursday, hence the offset 4). -/
def dayOfWeek (y m d : ℤ) : ℤ := (daysFromCivil y m d + 4) % 7

/-- Day of month of the second Sunday of March. -/
def secondSundayOfMarch (y : ℤ) : ℤ := 8 + (7 - dayOfWeek y 3 8) % 7

/-- Day of month of the first Sunday of November. -/
def firstSundayOfNovember (y : ℤ) : ℤ := 1 + (7 - dayOfWeek y 11 1) % 7

/-- Daylight-saving test for America/Los_Angeles on a naive local time,
per the post-2007 US rule encoded in the IANA database. -/
def laIsDST (dt : NaiveDT) : Bool :=
  let ssm := secondSundayOfMarch dt.year
  let fsn := firstSundayOfNovember dt.year
  let afterStart := decide (3 < dt.month) ||
    (dt.month == 3 && (decide (ssm < dt.day) || (dt.day == ssm && decide (2 ≤ dt.hour))))
  let beforeEnd := decide (dt.month < 11) ||
    (dt.month == 11 && (decide (dt.day < fsn) || (dt.day == fsn && decide (dt.hour < 2))))
  afterStart && beforeEnd

/-- The four timezone tokens the regex of _parse_start_to_utc recognizes. -/
inductive TZTok where
  | pst
  | pdt
  | utc
  | gmt
deriving DecidableEq

/-- The two concrete zones the token map can produce. -/
inductive TZName where
  | losAngeles
  | utcZone
deriving DecidableEq

/-- Token-to-zone map of the source (tz_map): PST and PDT both resolve to
America/Los_Angeles, UTC and GMT to UTC. -/
def tz_map : TZTok → TZName
  | TZTok.pst => TZName.losAngeles
  | TZTok.pdt => TZName.losAngeles
  | TZTok.utc => TZName.utcZone
  | TZTok.gmt => TZName.utcZone

/-- UTC offset in minutes a zone assigns to a naive local time (zoneinfo semantics). -/
def utcOffsetMinutes : TZName → NaiveDT → ℤ
  | TZName.utcZone, _ => 0
  | TZName.losAngeles, dt => if laIsDST dt then -420 else -480

/-- Minutes since the epoch of a naive date-time read as UTC. -/
def epochMinutes (dt : NaiveDT) : ℤ :=
  daysFromCivil dt.year dt.month dt.day * 1440 + dt.hour * 60 + dt.minute

/-- Zone resolved from the stripped trailing token: the token map when a
recognized token was present, UTC otherwise. -/
def resolveZone (tok : Option TZTok) : TZName :=
  match tok with
  | some t => tz_map t
  | none => TZName.utcZone

/-- Embedded _parse_start_to_utc on an already tokenized start string: the
trailing recognized token (if any) has been stripped into the second argument,
the remainder parsed into the naive date-time; the naive time is localized in
the resolved zone (UTC when no token) and normalized to UTC epoch minutes. -/
def parse_start_to_utc (dt : NaiveDT) (tok : Option TZTok) : ℤ :=
  epochMinutes dt - utcOffsetMinutes (resolveZone tok) dt

/-! ### Cohort assignment (add_viirs_obstime, lines 213 to 230) -/

/-- Half-day cohort index of the source: day-of-month times two plus hour
integer-divided by twelve. -/
def half_day (dt : NaiveDT) : ℤ := dt.day * 2 + dt.hour / 12

/-- Absolute half-day window of a timestamp: epoch day count times two plus
the half selector; two timestamps share a half-day window exactly when these
agree, and the window order is the chronological order of the windows. -/
def globalHalfDay (dt : NaiveDT) : ℤ :=
  daysFromCivil dt.year dt.month dt.day * 2 + dt.hour / 12

/-! ### Detection loading (load_viirs_points, lines 182 to 211) -/

/-- One raw detection record as the loader sees it after the per-file read:
whether it carries a geometry, and whether that geometry is empty. -/
structure ViirsRec where
  hasGeom : Bool
  emptyGeom : Bool
deriving DecidableEq

/-- The only error the loader raises: no shapefiles found under the directory. -/
inductive LoadErr where
  | noShapefiles
deriving DecidableEq

/-- Concatenation of the nonempty frames (source: pd.concat over gdfs). -/
def viirsConcat (files : List (List ViirsRec)) : List ViirsRec :=
  (files.filter (fun g => !g.isEmpty)).flatten

/-- Embedded load_viirs_points over the list of per-shapefile record lists
(records unreadable by the engine are already skipped by the read call):
errors when there are no files at all, drops empty frames, concatenates,
and filters out geometry-less and empty-geometry rows; an empty concatenation
is returned as-is. -/
def load_viirs_points (files : List (List ViirsRec)) : Except LoadErr (List ViirsRec) :=
  if files.isEmpty then Except.error LoadErr.noShapefiles
  else if (viirsConcat files).isEmpty then Except.ok (viirsConcat files)
  else Except.ok ((viirsConcat files).filter (fun r => r.hasGeom && !r.emptyGeom))

/-! ### Hull construction policy (viirs_concave_hulls_by_halfday, lines 254 to 280).
The convex and concave hull computations and the buffer call are external
shapely routines; the embedded function carries the convex hull result, the
outcome of the concave call, and the buffer map as parameters and models the
selection and repair logic of the source. -/

/-- Geometry type tags the selection logic inspects. -/
inductive GType where
  | point
  | lineString
  | polygon
  | multiPolygon
  | geomCollection
deriving DecidableEq

/-- A geometry as the policy observes it: its type tag, emptiness, and area. -/
structure Geom where
  gtype : GType
  isEmpty : Bool
  area : ℚ
deriving DecidableEq

/-- Outcome of the external concave-hull call: an exception or a geometry. -/
inductive ConcaveOutcome where
  | throws
  | ok (g : Geom)
deriving DecidableEq

/-- Repair step of the source: a Point or LineString result is buffered by a
tiny epsilon (the buffer map is the external shapely buffer), anything else
is kept unchanged. -/
def ensure_polygonal (buffer : Geom → Geom) (h : Geom) : Geom :=
  if h.gtype = GType.point ∨ h.gtype = GType.lineString then buffer h else h

/-- Hull selection of the source for one cohort: convex hull when fewer than
three accumulated points, else the concave result, falling back to the convex
hull only when the concave call throws; then the repair step. -/
def hull_for_cohort (buffer : Geom → Geom) (convex : Geom) (numPoints : ℕ)
    (concave : ConcaveOutcome) : Geom :=
  if numPoints < 3 then ensure_polygonal buffer convex
  else
    match concave with
    | ConcaveOutcome.throws => ensure_polygonal buffer convex
    | ConcaveOutcome.ok g => ensure_polygonal buffer g

/-! ### Concrete fixtures used by scenario parts and counterexamples -/

/-- The 4x4 scenario grid of the spec: arrival times 1 2 / 3 4 in the upper
left corner, no-data elsewhere. -/
def gEx : ToaGrid :=
  [[some 1, some 2, none, none],
   [some 3, some 4, none, none],
   [none, none, none, none],
   [none, none, none, none]]

/-- A concrete hull fixture with a key timestamp of 2 epoch seconds. -/
def hEx : ObsHull := ⟨2, [[true, false, false, false], [false, false, false, false],
  [false, false, false, false], [false, false, false, false]]⟩

/-- A matching-shape grid with zero valid cells (every cell no-data). -/
def gNoValid : ToaGrid := [[none, none], [none, none]]

/-- A hull fixture for the zero-valid-cell grid. -/
def hNv : ObsHull := ⟨1, [[false, false], [false, false]]⟩

/-- An empty zero-area polygon as a possible concave-hull outcome. -/
def egEmpty : Geom := ⟨GType.polygon, true, 0⟩

/-- A nonempty convex-hull polygon of positive area. -/
def cvxTri : Geom := ⟨GType.polygon, false, 1/2⟩

/-- A concrete buffer map for counterexample evaluation. -/
def bufEx : Geom → Geom := fun _ => ⟨GType.polygon, false, 1⟩

/-! ## Helper lemmas -/

theorem cellBurnt_some_iff (t v : ℚ) :
    cellBurnt t (some v) = true ↔ 0 < v ∧ v ≤ t := by
  unfold cellBurnt
  by_cases ht : 0 < t
  · simp [ht, and_comm]
  · rw [if_neg ht]
    constructor
    · intro h
      exact Bool.noConfusion h
    · rintro ⟨hv, hvt⟩
      exact absurd (lt_of_lt_of_le hv hvt) ht

theorem cellBurnt_iff (t : ℚ) (c : Option ℚ) :
    cellBurnt t c = true ↔ ∃ v, c = some v ∧ 0 < v ∧ v ≤ t := by
  cases c with
  | none => simp [cellBurnt]
  | some v =>
    rw [cellBurnt_some_iff]
    constructor
    · intro h; exact ⟨v, rfl, h⟩
    · rintro ⟨w, hw, h⟩
      cases Option.some.inj hw
      exact h

theorem cellBurnt_nonpos (t : ℚ) (c : Option ℚ) (ht : t ≤ 0) :
    cellBurnt t c = false := by
  unfold cellBurnt
  rw [if_neg (not_lt.mpr ht)]

theorem burntMask_nonpos (g : ToaGrid) (t : ℚ) (ht : t ≤ 0) :
    ∀ row ∈ burntMask g t, ∀ b ∈ row, b = false := by
  intro row hrow b hb
  simp only [burntMask, List.mem_map] at hrow
  obtain ⟨r, _, rfl⟩ := hrow
  simp only [List.mem_map] at hb
  obtain ⟨c, _, rfl⟩ := hb
  exact cellBurnt_nonpos t c ht

theorem mem_burnedVals (g : ToaGrid) (t v : ℚ) :
    v ∈ burnedVals g t ↔ some v ∈ g.flatten ∧ 0 < v ∧ v ≤ t := by
  unfold burnedVals
  rw [List.mem_filterMap]
  constructor
  · rintro ⟨c, hc, he⟩
    cases c with
    | none => exact Option.noConfusion he
    | some w =>
      rw [Option.some_bind] at he
      by_cases hw : cellBurnt t (some w) = true
      · rw [if_pos hw] at he
        cases Option.some.inj he
        exact ⟨hc, (cellBurnt_some_iff t v).mp hw⟩
      · rw [if_neg hw] at he
        exact Option.noConfusion he
  · rintro ⟨hm, h1, h2⟩
    refine ⟨some v, hm, ?_⟩
    rw [Option.some_bind]
    rw [if_pos ((cellBurnt_some_iff t v).mpr ⟨h1, h2⟩)]

theorem foldl_max_le_iff (vs : List ℚ) (v m : ℚ) :
    vs.foldl max v ≤ m ↔ v ≤ m ∧ ∀ x ∈ vs, x ≤ m := by
  induction vs generalizing v with
  | nil => simp
  | cons x xs ih =>
    simp only [List.foldl_cons, ih, max_le_iff, List.mem_cons]
    constructor
    · rintro ⟨⟨hv, hx⟩, hxs⟩
      refine ⟨hv, ?_⟩
      rintro y (rfl | hy)
      · exact hx
      · exact hxs y hy
    · rintro ⟨hv, hall⟩
      exact ⟨⟨hv, hall x (Or.inl rfl)⟩, fun y hy => hall y (Or.inr hy)⟩

theorem foldl_max_mem (vs : List ℚ) (v : ℚ) :
    vs.foldl max v ∈ v :: vs := by
  induction vs generalizing v with
  | nil => simp
  | cons x xs ih =>
    simp only [List.foldl_cons, List.mem_cons]
    rcases List.mem_cons.mp (ih (max v x)) with h | h
    · rcases max_choice v x with hm | hm
      · left
        rw [h, hm]
      · right
        left
        rw [h, hm]
    · right
      right
      exact h

theorem foldl_max_spec (vs : List ℚ) (v : ℚ) :
    v ≤ vs.foldl max v ∧ ∀ x ∈ vs, x ≤ vs.foldl max v :=
  (foldl_max_le_iff vs v (vs.foldl max v)).mp (le_refl _)

theorem simTimeRealized_eq_some_iff (g : ToaGrid) (t m : ℚ) :
    simTimeRealized g t = some m ↔
      m ∈ burnedVals g t ∧ ∀ v ∈ burnedVals g t, v ≤ m := by
  unfold simTimeRealized
  cases hb : burnedVals g t with
  | nil => simp
  | cons v vs =>
    simp only [Option.some.injEq]
    constructor
    · rintro rfl
      refine ⟨foldl_max_mem vs v, ?_⟩
      intro x hx
      rcases List.mem_cons.mp hx with rfl | hxs
      · exact (foldl_max_spec vs x).1
      · exact (foldl_max_spec vs v).2 x hxs
    · rintro ⟨hmem, hub⟩
      have h1 : vs.foldl max v ≤ m := by
        rw [foldl_max_le_iff]
        exact ⟨hub v (List.mem_cons_self v vs), fun x hx => hub x (List.mem_cons_of_mem v hx)⟩
      have h2 : m ≤ vs.foldl max v := by
        rcases List.mem_cons.mp hmem with rfl | hxs
        · exact (foldl_max_spec vs m).1
        · exact (foldl_max_spec vs v).2 m hxs
      exact le_antisymm h1 h2

theorem simTimeRealized_eq_none_iff (g : ToaGrid) (t : ℚ) :
    simTimeRealized g t = none ↔ burnedVals g t = [] := by
  unfold simTimeRealized
  cases hb : burnedVals g t <;> simp

/-! ## Claim C1 -/

/-- C1: in the skill scorer, a valid cell of the simulated grid is marked burned
if and only if its arrival time is finite, strictly positive, and at most the
elapsed seconds of the hull; a nonpositive elapsed time leaves the mask entirely
unburned; the realized simulated cutoff is the maximum arrival time among burned
cells and NaN (none) when no cell burns; and the 4x4 scenario grid at cutoff 3
yields the stated mask and realized cutoff 3. -/
theorem C1_burnt_mask_and_realized_cutoff :
    (∀ (t : ℚ) (c : Option ℚ), cellBurnt t c = true ↔ ∃ v, c = some v ∧ 0 < v ∧ v ≤ t)
    ∧ (∀ (g : ToaGrid) (t : ℚ), t ≤ 0 → ∀ row ∈ burntMask g t, ∀ b ∈ row, b = false)
    ∧ (∀ (g : ToaGrid) (t v : ℚ), v ∈ burnedVals g t ↔ some v ∈ g.flatten ∧ 0 < v ∧ v ≤ t)
    ∧ (∀ (g : ToaGrid) (t m : ℚ), simTimeRealized g t = some m ↔
        m ∈ burnedVals g t ∧ ∀ v ∈ burnedVals g t, v ≤ m)
    ∧ (∀ (g : ToaGrid) (t : ℚ), simTimeRealized g t = none ↔ burnedVals g t = [])
    ∧ burntMask gEx 3 = [[true, true, false, false], [true, false, false, false],
        [false, false, false, false], [false, false, false, false]]
    ∧ simTimeRealized gEx 3 = some 3 := by
  refine ⟨fun t c => cellBurnt_iff t c, burntMask_nonpos, mem_burnedVals,
    simTimeRealized_eq_some_iff, simTimeRealized_eq_none_iff, by decide, by decide⟩

/-- Witness for C1 at concrete inputs. -/
theorem C1_burnt_mask_and_realized_cutoff_witness :
    cellBurnt 3 (some 2) = true ∧ (∀ row ∈ burntMask gEx (-1), ∀ b ∈ row, b = false) := by
  refine ⟨?_, ?_⟩
  · exact (C1_burnt_mask_and_realized_cutoff.1 3 (some 2)).mpr ⟨2, rfl, by norm_num, by norm_num⟩
  · exact C1_burnt_mask_and_realized_cutoff.2.1 gEx (-1) (by norm_num)

theorem zip_self_eq_map (l : List Bool) : l.zip l = l.map (fun x => (x, x)) := by
  induction l with
  | nil => rfl
  | cons x xs ih => simp [List.zip_cons_cons, ih]

theorem countPair_self (l : List Bool) (a b : Bool) :
    countPair l l a b = if a = b then l.count a else 0 := by
  unfold countPair
  rw [zip_self_eq_map, List.filter_map, List.length_map]
  by_cases hab : a = b
  · subst hab
    rw [if_pos rfl, List.count, List.countP_eq_length_filter]
    congr 1
    apply List.filter_congr
    intro x _
    cases a <;> cases x <;> simp [Function.comp]
  · rw [if_neg hab, List.length_eq_zero, List.filter_eq_nil_iff]
    intro x _
    cases a <;> cases b <;> cases x <;> simp_all [Function.comp]

theorem count_true_add_count_false (l : List Bool) :
    l.count true + l.count false = l.length := by
  induction l with
  | nil => rfl
  | cons x xs ih =>
    cases x <;> simp [List.count_cons] <;> omega

theorem kappaN_self (l : List Bool) : kappaN l l = l.length := by
  simp [kappaN, List.length_zip]

theorem foldl_or_eq_true (bs : List Bool) (b : Bool) (h : b = true ∨ true ∈ bs) :
    bs.foldl (fun x y => x || y) b = true := by
  induction bs generalizing b with
  | nil =>
    rcases h with rfl | h2
    · rfl
    · exact absurd h2 (List.not_mem_nil true)
  | cons c cs ih =>
    simp only [List.foldl_cons]
    apply ih
    rcases h with rfl | h2
    · left
      rfl
    · rcases List.mem_cons.mp h2 with rfl | h3
      · left
        cases b <;> rfl
      · right
        exact h3

theorem foldl_and_eq_false (bs : List Bool) (b : Bool) (h : b = false ∨ false ∈ bs) :
    bs.foldl (fun x y => x && y) b = false := by
  induction bs generalizing b with
  | nil =>
    rcases h with rfl | h2
    · rfl
    · exact absurd h2 (List.not_mem_nil false)
  | cons c cs ih =>
    simp only [List.foldl_cons]
    apply ih
    rcases h with rfl | h2
    · left
      rfl
    · rcases List.mem_cons.mp h2 with rfl | h3
      · left
        cases b <;> rfl
      · right
        exact h3

theorem isSingleClass_both_classes (l : List Bool) (ht : true ∈ l) (hf : false ∈ l) :
    isSingleClass l = Except.ok false := by
  cases l with
  | nil => exact absurd ht (List.not_mem_nil true)
  | cons b bs =>
    unfold isSingleClass
    dsimp only
    rw [foldl_or_eq_true bs b (by simpa [eq_comm] using List.mem_cons.mp ht),
      foldl_and_eq_false bs b (by simpa [eq_comm] using List.mem_cons.mp hf)]
    rfl

theorem cohenKappaScore_self (l : List Bool) (ht : true ∈ l) (hf : false ∈ l) :
    cohenKappaScore l l = some 1 := by
  have hct : 0 < l.count true := List.count_pos_iff.mpr ht
  have hcf : 0 < l.count false := List.count_pos_iff.mpr hf
  have hlen : l.count true + l.count false = l.length := count_true_add_count_false l
  have hn : 0 < l.length := by omega
  have hnq : ((l.length : ℚ)) ≠ 0 := by
    exact_mod_cast Nat.pos_iff_ne_zero.mp hn
  have hpo : kappaPo l l = 1 := by
    unfold kappaPo
    rw [kappaN_self, countPair_self, countPair_self, if_pos rfl, if_pos rfl, hlen]
    exact div_self hnq
  have hpe_lt : kappaPe l l < 1 := by
    unfold kappaPe
    rw [kappaN_self]
    rw [div_lt_one (by positivity)]
    have h1 : (1 : ℚ) ≤ (l.count true : ℚ) := by exact_mod_cast hct
    have h2 : (1 : ℚ) ≤ (l.count false : ℚ) := by exact_mod_cast hcf
    have h3 : ((l.length : ℚ)) = (l.count true : ℚ) + (l.count false : ℚ) := by
      exact_mod_cast hlen.symm
    rw [h3]
    nlinarith
  unfold cohenKappaScore
  rw [kappaN_self, if_neg (Nat.pos_iff_ne_zero.mp hn), if_neg (ne_of_lt hpe_lt), hpo]
  rw [div_self (by linarith : (1 : ℚ) - kappaPe l l ≠ 0)]

/-! ## Claim C2 -/

/-- C2: the recorded kappa of the skill scorer is NaN (none) whenever both
label vectors over valid cells are single-class (each nonempty and reduced to
max equal to min by the guard), and equals 1 when the two masks are identical
over valid cells and carry both classes; an empty simulated label vector does
not reach either outcome but raises the zero-size-reduction error instead. -/
theorem C2_kappa_single_class_and_identity :
    ∀ yObs ySim : List Bool,
      (isSingleClass ySim = Except.ok true → isSingleClass yObs = Except.ok true →
        recordedKappa yObs ySim = Except.ok none)
      ∧ (yObs = ySim → true ∈ yObs → false ∈ yObs →
        recordedKappa yObs ySim = Except.ok (some 1))
      ∧ (ySim = [] → recordedKappa yObs ySim = Except.error ScoreErr.emptyReduction) := by
  intro yObs ySim
  refine ⟨?_, ?_, ?_⟩
  · intro hs ho
    unfold recordedKappa
    rw [hs, ho]
    rfl
  · rintro rfl ht hf
    unfold recordedKappa
    rw [isSingleClass_both_classes yObs ht hf]
    simpa using cohenKappaScore_self yObs ht hf
  · rintro rfl
    rfl

/-- Witness for C2 at concrete label vectors. -/
theorem C2_kappa_single_class_and_identity_witness :
    recordedKappa [true, false] [true, false] = Except.ok (some 1)
    ∧ recordedKappa [true, true] [false, false] = Except.ok none
    ∧ recordedKappa [true] [] = Except.error ScoreErr.emptyReduction := by
  refine ⟨?_, ?_, ?_⟩
  · exact (C2_kappa_single_class_and_identity [true, false] [true, false]).2.1 rfl
      (by simp) (by simp)
  · exact (C2_kappa_single_class_and_identity [true, true] [false, false]).1
      rfl rfl
  · exact (C2_kappa_single_class_and_identity [true] []).2.2 rfl

theorem cumsumFrom_le (acc : ℕ) (l : List ℕ) : ∀ x ∈ cumsumFrom acc l, acc ≤ x := by
  induction l generalizing acc with
  | nil =>
    intro x hx
    exact absurd hx (List.not_mem_nil x)
  | cons c cs ih =>
    intro x hx
    rcases List.mem_cons.mp hx with rfl | hx
    · exact Nat.le_add_right acc c
    · exact le_trans (Nat.le_add_right acc c) (ih (acc + c) x hx)

theorem cumsumFrom_sorted (acc : ℕ) (l : List ℕ) :
    List.Sorted (· ≤ ·) (cumsumFrom acc l) := by
  induction l generalizing acc with
  | nil => exact List.sorted_nil
  | cons c cs ih =>
    rw [cumsumFrom]
    exact List.sorted_cons.mpr ⟨cumsumFrom_le (acc + c) cs, ih (acc + c)⟩

theorem cumsumFrom_getLast (acc : ℕ) (l : List ℕ) (h : l ≠ []) :
    (cumsumFrom acc l).getLast? = some (acc + l.sum) := by
  induction l generalizing acc with
  | nil => exact absurd rfl h
  | cons c cs ih =>
    cases cs with
    | nil => simp [cumsumFrom]
    | cons d ds =>
      have h2 := ih (acc + c) (by simp)
      have hred : cumsumFrom acc (c :: d :: ds) =
          (acc + c) :: (acc + c + d) :: cumsumFrom (acc + c + d) ds := rfl
      rw [hred, List.getLast?_cons_cons]
      have hred2 : cumsumFrom (acc + c) (d :: ds) =
          (acc + c + d) :: cumsumFrom (acc + c + d) ds := rfl
      rw [hred2] at h2
      rw [h2]
      congr 1
      simp only [List.sum_cons]
      omega

theorem toaPos_sorted (cells : List (Option ℚ)) :
    List.Sorted (· ≤ ·) (toaPos cells) := by
  unfold toaPos toaVals
  exact (List.sorted_insertionSort (· ≤ ·) (cells.filterMap id)).filter _

theorem toaUnique_sorted (cells : List (Option ℚ)) :
    List.Sorted (· ≤ ·) (toaUnique cells) := by
  unfold toaUnique
  exact List.Pairwise.sublist (List.dedup_sublist _) (toaPos_sorted cells)

theorem toaCounts_sum (cells : List (Option ℚ)) :
    (toaCounts cells).sum = (toaPos cells).length := by
  unfold toaCounts toaUnique
  rw [← List.sum_toFinset _ (List.nodup_dedup _)]
  have hfs : (toaPos cells).dedup.toFinset = (toaPos cells).toFinset := by
    ext x
    simp [List.mem_toFinset, List.mem_dedup]
  rw [hfs]
  exact List.sum_toFinset_count_eq_length _

theorem toaPos_length (cells : List (Option ℚ)) :
    (toaPos cells).length = (cells.filterMap id).countP (fun v => decide (0 < v)) := by
  unfold toaPos toaVals
  rw [← List.countP_eq_length_filter]
  exact (List.perm_insertionSort (· ≤ ·) (cells.filterMap id)).countP_eq _

theorem toaUnique_pos (cells : List (Option ℚ)) :
    ∀ t ∈ toaUnique cells, 0 < t := by
  intro t ht
  have hmem : t ∈ toaPos cells := List.dedup_subset _ ht
  have := List.of_mem_filter hmem
  exact of_decide_eq_true this

theorem toaPos_nil_of_invalid (cells : List (Option ℚ)) (h : cells.filterMap id = []) :
    toaPos cells = [] := by
  unfold toaPos toaVals
  rw [h]
  rfl

theorem pixelScale_nonneg (pa : Option ℚ) (h : ∀ a ∈ pa, (0 : ℚ) ≤ a) :
    0 ≤ pixelScale pa := by
  cases pa with
  | none => norm_num [pixelScale]
  | some a =>
    show (0 : ℚ) ≤ if a = 0 then 1 else a
    by_cases ha : a = 0
    · rw [if_pos ha]
      norm_num
    · rw [if_neg ha]
      exact h a rfl

/-! ## Claim C9 -/

/-- C9: the exact-mode burn-history curve has non-decreasing times and monotone
non-decreasing cumulative counts and areas; every emitted time is strictly
positive (zero and negative arrivals are excluded); the final cumulative count
equals the number of finite strictly positive cells; and an empty or all-invalid
grid yields the empty curve rather than an error. -/
theorem C9_burn_history_exact_mode (cells : List (Option ℚ)) (pixelArea : Option ℚ)
    (hA : ∀ a ∈ pixelArea, (0 : ℚ) ≤ a) :
    List.Sorted (· ≤ ·) (burn_area_history_from_toa cells pixelArea).1
    ∧ List.Sorted (· ≤ ·) (burn_area_history_from_toa cells pixelArea).2.1
    ∧ List.Sorted (· ≤ ·) (burn_area_history_from_toa cells pixelArea).2.2
    ∧ (∀ t ∈ (burn_area_history_from_toa cells pixelArea).1, 0 < t)
    ∧ (toaPos cells ≠ [] →
        (burn_area_history_from_toa cells pixelArea).2.1.getLast? =
          some ((cells.filterMap id).countP (fun v => decide (0 < v))))
    ∧ (toaPos cells = [] → burn_area_history_from_toa cells pixelArea = ([], [], []))
    ∧ (cells.filterMap id = [] → burn_area_history_from_toa cells pixelArea = ([], [], [])) := by
  unfold burn_area_history_from_toa
  by_cases h0 : (cells.filterMap id).isEmpty
  · rw [if_pos h0]
    have hpos : toaPos cells = [] := toaPos_nil_of_invalid cells (List.isEmpty_iff.mp h0)
    refine ⟨List.sorted_nil, List.sorted_nil, List.sorted_nil, ?_, ?_, fun _ => rfl, fun _ => rfl⟩
    · intro t ht
      exact absurd ht (List.not_mem_nil t)
    · intro hne
      exact absurd hpos hne
  · rw [if_neg h0]
    by_cases h1 : (toaPos cells).isEmpty
    · rw [if_pos h1]
      refine ⟨List.sorted_nil, List.sorted_nil, List.sorted_nil, ?_, ?_, fun _ => rfl, fun _ => rfl⟩
      · intro t ht
        exact absurd ht (List.not_mem_nil t)
      · intro hne
        exact absurd (List.isEmpty_iff.mp h1) hne
    · rw [if_neg h1]
      have hposne : toaPos cells ≠ [] := fun hc => h1 (List.isEmpty_iff.mpr hc)
      have hcountsne : toaCounts cells ≠ [] := by
        unfold toaCounts toaUnique
        simp only [ne_eq, List.map_eq_nil_iff, List.dedup_eq_nil]
        exact hposne
      refine ⟨toaUnique_sorted cells, cumsumFrom_sorted 0 (toaCounts cells), ?_, ?_, ?_, ?_, ?_⟩
      · have hmono : ∀ a b : ℕ, a ≤ b →
            (a : ℚ) * pixelScale pixelArea ≤ (b : ℚ) * pixelScale pixelArea := by
          intro a b hab
          exact mul_le_mul_of_nonneg_right (by exact_mod_cast hab) (pixelScale_nonneg pixelArea hA)
        exact List.Pairwise.map (fun c : ℕ => (c : ℚ) * pixelScale pixelArea) hmono
          (cumsumFrom_sorted 0 (toaCounts cells))
      · exact toaUnique_pos cells
      · intro _
        unfold toaCum
        rw [cumsumFrom_getLast 0 (toaCounts cells) hcountsne, toaCounts_sum, toaPos_length]
        congr 1
        omega
      · intro hc
        exact absurd hc hposne
      · intro hc
        exact absurd (List.isEmpty_iff.mpr hc) h0

/-- Witness for C9 at a concrete raster. -/
theorem C9_burn_history_exact_mode_witness :
    List.Sorted (· ≤ ·)
      (burn_area_history_from_toa [some 2, none, some 1, some 1, some (-3), some 0] (some 5)).1
    ∧ (burn_area_history_from_toa [some 2, none, some 1, some 1, some (-3), some 0]
        (some 5)).2.1.getLast? = some 3 := by
  have h := C9_burn_history_exact_mode [some 2, none, some 1, some 1, some (-3), some 0]
    (some 5) (by intro a ha; cases ha; norm_num)
  refine ⟨h.1, ?_⟩
  have h5 := h.2.2.2.2.1 (by decide)
  rw [h5]
  decide

theorem maskedLabels_mem (b : Bool) (m valid : List (List Bool))
    (hb : b ∈ maskedLabels m valid) : b ∈ m.flatten := by
  unfold maskedLabels at hb
  rw [List.mem_filterMap] at hb
  obtain ⟨p, hp, he⟩ := hb
  by_cases h2 : p.2 = true
  · rw [if_pos h2] at he
    cases Option.some.inj he
    exact (List.of_mem_zip hp).1
  · rw [if_neg h2] at he
    exact Option.noConfusion he

theorem maskedLabels_all_false (m valid : List (List Bool))
    (h : ∀ row ∈ m, ∀ b ∈ row, b = false) :
    maskedLabels m valid = List.replicate (maskedLabels m valid).length false := by
  rw [List.eq_replicate_iff]
  refine ⟨rfl, ?_⟩
  intro b hb
  have hbm : b ∈ m.flatten := maskedLabels_mem b m valid hb
  rw [List.mem_flatten] at hbm
  obtain ⟨row, hrow, hbr⟩ := hbm
  exact h row hrow b hbr

/-! ## Library-error helper lemmas for the scorer -/

theorem recordedKappa_ok (yObs ySim : List Bool) (hs : ySim ≠ []) (ho : yObs ≠ [])
    (hlen : yObs.length = ySim.length) :
    ∃ k, recordedKappa yObs ySim = Except.ok k := by
  cases hS : isSingleClass ySim with
  | error e =>
    cases ySim with
    | nil => exact absurd rfl hs
    | cons b bs => simp [isSingleClass] at hS
  | ok sSim =>
    unfold recordedKappa
    rw [hS]
    dsimp only
    cases sSim with
    | false =>
      rw [if_neg (by simp), if_pos hlen]
      exact ⟨_, rfl⟩
    | true =>
      rw [if_pos rfl]
      cases hO : isSingleClass yObs with
      | error e =>
        cases yObs with
        | nil => exact absurd rfl ho
        | cons c cs => simp [isSingleClass] at hO
      | ok sObs =>
        dsimp only
        cases sObs with
        | true => exact ⟨none, by rw [if_pos rfl]⟩
        | false =>
          rw [if_neg (by simp), if_pos hlen]
          exact ⟨_, rfl⟩

theorem burntMask_flatten_length (g : ToaGrid) (t : ℚ) :
    (burntMask g t).flatten.length = g.flatten.length := by
  induction g with
  | nil => rfl
  | cons r rs ih =>
    have hcons : burntMask (r :: rs) t = r.map (cellBurnt t) :: burntMask rs t := rfl
    rw [hcons, List.flatten_cons, List.flatten_cons, List.length_append,
      List.length_append, List.length_map, ih]

theorem validMask_flatten_length (g : ToaGrid) :
    (validMask g).flatten.length = g.flatten.length := by
  induction g with
  | nil => rfl
  | cons r rs ih =>
    have hcons : validMask (r :: rs) = r.map Option.isSome :: validMask rs := rfl
    rw [hcons, List.flatten_cons, List.flatten_cons, List.length_append,
      List.length_append, List.length_map, ih]

theorem filterMap_zip_length (xs ys : List Bool) (hlen : xs.length = ys.length) :
    ((xs.zip ys).filterMap (fun p => if p.2 then some p.1 else none)).length =
      ys.count true := by
  induction xs generalizing ys with
  | nil =>
    cases ys with
    | nil => rfl
    | cons c cs => exact absurd hlen (by simp)
  | cons x xs2 ih =>
    cases ys with
    | nil => exact absurd hlen (by simp)
    | cons y ys2 =>
      rw [List.zip_cons_cons, List.filterMap_cons]
      cases y with
      | true =>
        rw [if_pos rfl]
        dsimp only
        rw [List.length_cons, ih ys2 (by simpa using hlen), List.count_cons]
        simp
      | false =>
        rw [if_neg (by simp)]
        dsimp only
        rw [ih ys2 (by simpa using hlen), List.count_cons]
        simp

theorem maskedLabels_length (m valid : List (List Bool))
    (hlen : m.flatten.length = valid.flatten.length) :
    (maskedLabels m valid).length = valid.flatten.count true := by
  unfold maskedLabels
  exact filterMap_zip_length _ _ hlen

theorem maskedLabels_ne_nil (m valid : List (List Bool))
    (hlen : m.flatten.length = valid.flatten.length)
    (hval : true ∈ valid.flatten) : maskedLabels m valid ≠ [] := by
  have h1 := maskedLabels_length m valid hlen
  intro hc
  rw [hc] at h1
  have h2 := List.count_pos_iff.mpr hval
  rw [← h1] at h2
  exact absurd h2 (by simp)

theorem validMask_all_false (g : ToaGrid) (h : ∀ c ∈ g.flatten, c = none) :
    ∀ b ∈ (validMask g).flatten, b = false := by
  intro b hb
  rw [List.mem_flatten] at hb
  obtain ⟨row, hrow, hbr⟩ := hb
  simp only [validMask, List.mem_map] at hrow
  obtain ⟨r, hr, rfl⟩ := hrow
  rw [List.mem_map] at hbr
  obtain ⟨c, hc, rfl⟩ := hbr
  rw [h c (List.mem_flatten.mpr ⟨r, hr, hc⟩)]
  rfl

theorem maskedLabels_nil_of_valid_false (m valid : List (List Bool))
    (h : ∀ b ∈ valid.flatten, b = false) : maskedLabels m valid = [] := by
  rw [List.eq_nil_iff_forall_not_mem]
  intro x hx
  unfold maskedLabels at hx
  rw [List.mem_filterMap] at hx
  obtain ⟨p, hp, he⟩ := hx
  by_cases h2 : p.2 = true
  · exact absurd (h p.2 (List.of_mem_zip hp).2) (by simp [h2])
  · rw [if_neg h2] at he
    exact Option.noConfusion he

theorem simTimeRealized_nonpos (g : ToaGrid) (t : ℚ) (ht : t ≤ 0) :
    simTimeRealized g t = none := by
  rw [simTimeRealized_eq_none_iff]
  unfold burnedVals
  rw [List.filterMap_eq_nil_iff]
  intro c _
  cases c with
  | none => rfl
  | some v =>
    have hcb : cellBurnt t (some v) = false := cellBurnt_nonpos _ _ ht
    rw [Option.some_bind, if_neg (by simp [hcb])]

theorem perHullRecord_ok (g : ToaGrid) (t0 : ℚ) (h : ObsHull)
    (hval : true ∈ (validMask g).flatten)
    (hras : h.raster.flatten.length = g.flatten.length) :
    ∃ k, recordedKappa (maskedLabels h.raster (validMask g))
        (maskedLabels (burntMask g (h.key - t0)) (validMask g)) = Except.ok k
      ∧ perHullRecord g t0 h =
          Except.ok ⟨k, simTimeRealized g (h.key - t0), h.key - t0⟩ := by
  have hvlen := validMask_flatten_length g
  have hsimlen : (burntMask g (h.key - t0)).flatten.length = (validMask g).flatten.length := by
    rw [burntMask_flatten_length, hvlen]
  have hobslen : h.raster.flatten.length = (validMask g).flatten.length := by
    rw [hras, hvlen]
  have hsim := maskedLabels_ne_nil _ _ hsimlen hval
  have hobs := maskedLabels_ne_nil _ _ hobslen hval
  have hleneq : (maskedLabels h.raster (validMask g)).length =
      (maskedLabels (burntMask g (h.key - t0)) (validMask g)).length := by
    rw [maskedLabels_length _ _ hobslen, maskedLabels_length _ _ hsimlen]
  obtain ⟨k, hk⟩ := recordedKappa_ok _ _ hsim hobs hleneq
  refine ⟨k, hk, ?_⟩
  unfold perHullRecord
  rw [hk]

theorem scoreHulls_ok_of_all (g : ToaGrid) (t0 : ℚ) (hs : List ObsHull)
    (hall : ∀ h ∈ hs, ∃ r, perHullRecord g t0 h = Except.ok r) :
    ∃ out, scoreHulls g t0 hs = Except.ok out ∧ out.length = hs.length
      ∧ ∀ h ∈ hs, ∀ r, perHullRecord g t0 h = Except.ok r → r ∈ out := by
  induction hs with
  | nil =>
    refine ⟨[], rfl, rfl, ?_⟩
    intro h hh
    exact absurd hh (List.not_mem_nil h)
  | cons h2 rest ih =>
    obtain ⟨r2, hr2⟩ := hall h2 (List.mem_cons_self h2 rest)
    obtain ⟨out, hout, hlen, hmem⟩ := ih (fun x hx => hall x (List.mem_cons_of_mem h2 hx))
    refine ⟨r2 :: out, ?_, by simp [hlen], ?_⟩
    · unfold scoreHulls
      rw [hr2, hout]
    · intro x hx r hr
      rcases List.mem_cons.mp hx with rfl | hx2
      · have heq : r2 = r := Except.ok.inj (hr2.symm.trans hr)
        rw [← heq]
        exact List.mem_cons_self r2 out
      · exact List.mem_cons_of_mem r2 (hmem x hx2 r hr)

/-! ## Claim C7 -/

/-- C7 counterexample: with matching shapes, a grid carrying zero valid cells
and one hull, the scorer raises the zero-size-reduction ValueError of the
single-class guard, so a hard error is raised without any shape mismatch. -/
theorem C7_error_without_mismatch_counterexample :
    gridShape gNoValid = (2, 2)
    ∧ calc_cohen_kappa_for_case gNoValid (2, 2) [hNv] 0 =
        Except.error (CaseErr.valueError ScoreErr.emptyReduction) := by
  refine ⟨rfl, ?_⟩
  have hnone : ∀ c ∈ gNoValid.flatten, c = none := by decide
  have hsimnil : maskedLabels (burntMask gNoValid (hNv.key - 0)) (validMask gNoValid) = [] :=
    maskedLabels_nil_of_valid_false _ _ (validMask_all_false gNoValid hnone)
  have hph : perHullRecord gNoValid 0 hNv = Except.error ScoreErr.emptyReduction := by
    unfold perHullRecord
    rw [hsimnil]
    rfl
  have hL : List.insertionSort (fun a b : ObsHull => a.key ≤ b.key) [hNv] = [hNv] := rfl
  have hs : scoreHulls gNoValid 0 [hNv] = Except.error ScoreErr.emptyReduction := by
    unfold scoreHulls
    rw [hph]
  unfold calc_cohen_kappa_for_case
  rw [if_neg (by decide : ¬gridShape gNoValid ≠ (2, 2)), hL, hs]

/-- C7 amended: the grid-mismatch error is raised exactly when the shapes
differ, it carries both shapes, it is checked before any per-cohort work, and
no record list accompanies any error; when the shapes match and every
per-cohort guard evaluates, one record per hull is emitted; but the mismatch is
not the only hard error: with matching shapes, an all-invalid grid and at least
one hull, the guard raises the zero-size-reduction ValueError instead. -/
theorem C7_grid_mismatch_amended (g : ToaGrid) (refShape : ℕ × ℕ)
    (hulls : List ObsHull) (t0 : ℚ) :
    (calc_cohen_kappa_for_case g refShape hulls t0 =
        Except.error (CaseErr.gridMismatch (gridShape g) refShape) ↔
      gridShape g ≠ refShape)
    ∧ (∀ s r, calc_cohen_kappa_for_case g refShape hulls t0 =
        Except.error (CaseErr.gridMismatch s r) →
        s = gridShape g ∧ r = refShape ∧ s ≠ r)
    ∧ (gridShape g = refShape →
        (∀ h ∈ hulls, ∃ r, perHullRecord g t0 h = Except.ok r) →
        ∃ out, calc_cohen_kappa_for_case g refShape hulls t0 = Except.ok out
          ∧ out.length = hulls.length)
    ∧ (gridShape g = refShape → (∀ c ∈ g.flatten, c = none) → hulls ≠ [] →
        calc_cohen_kappa_for_case g refShape hulls t0 =
          Except.error (CaseErr.valueError ScoreErr.emptyReduction)) := by
  by_cases hsh : gridShape g ≠ refShape
  · have hcalc : calc_cohen_kappa_for_case g refShape hulls t0 =
        Except.error (CaseErr.gridMismatch (gridShape g) refShape) := by
      unfold calc_cohen_kappa_for_case
      rw [if_pos hsh]
    refine ⟨⟨fun _ => hsh, fun _ => hcalc⟩, ?_, fun hc => absurd hc hsh,
      fun hc => absurd hc hsh⟩
    intro s r hsr
    rw [hcalc] at hsr
    have hinj := Except.error.inj hsr
    injection hinj with h1 h2
    exact ⟨h1.symm, h2.symm, by rw [← h1, ← h2]; exact hsh⟩
  · push_neg at hsh
    have hfalse : ∀ s r, calc_cohen_kappa_for_case g refShape hulls t0 ≠
        Except.error (CaseErr.gridMismatch s r) := by
      intro s r hc
      unfold calc_cohen_kappa_for_case at hc
      rw [if_neg (not_not_intro hsh)] at hc
      cases hsc : scoreHulls g t0 (List.insertionSort (fun a b => a.key ≤ b.key) hulls) with
      | error e2 =>
        rw [hsc] at hc
        exact CaseErr.noConfusion (Except.error.inj hc)
      | ok out =>
        rw [hsc] at hc
        exact Except.noConfusion hc
    refine ⟨⟨?_, fun hne => absurd hsh hne⟩, ?_, ?_, ?_⟩
    · intro hc
      exact absurd hc (hfalse (gridShape g) refShape)
    · intro s r hsr
      exact absurd hsr (hfalse s r)
    · intro _ hall
      have hall2 : ∀ h ∈ List.insertionSort (fun a b : ObsHull => a.key ≤ b.key) hulls,
          ∃ r, perHullRecord g t0 h = Except.ok r := by
        intro h hh
        exact hall h ((List.perm_insertionSort _ hulls).mem_iff.mp hh)
      obtain ⟨out, hout, hlen, _⟩ := scoreHulls_ok_of_all g t0 _ hall2
      refine ⟨out, ?_, ?_⟩
      · unfold calc_cohen_kappa_for_case
        rw [if_neg (not_not_intro hsh), hout]
      · rw [hlen]
        exact (List.perm_insertionSort _ hulls).length_eq
    · intro _ hnone hne
      have hLlen := (List.perm_insertionSort (fun a b : ObsHull => a.key ≤ b.key)
        hulls).length_eq
      cases hL : List.insertionSort (fun a b : ObsHull => a.key ≤ b.key) hulls with
      | nil =>
        rw [hL] at hLlen
        exact absurd (List.length_eq_zero.mp hLlen.symm) hne
      | cons h2 rest =>
        have hsimnil : maskedLabels (burntMask g (h2.key - t0)) (validMask g) = [] :=
          maskedLabels_nil_of_valid_false _ _ (validMask_all_false g hnone)
        have hph : perHullRecord g t0 h2 = Except.error ScoreErr.emptyReduction := by
          unfold perHullRecord
          rw [hsimnil]
          rfl
        have hs : scoreHulls g t0 (h2 :: rest) = Except.error ScoreErr.emptyReduction := by
          unfold scoreHulls
          rw [hph]
        unfold calc_cohen_kappa_for_case
        rw [if_neg (not_not_intro hsh), hL, hs]

/-- Witness for C7 amended at a mismatching shape and at a fully valid grid. -/
theorem C7_grid_mismatch_amended_witness :
    calc_cohen_kappa_for_case gEx (3, 3) [] 0 =
      Except.error (CaseErr.gridMismatch (4, 4) (3, 3))
    ∧ (∃ out, calc_cohen_kappa_for_case gEx (4, 4) [hEx] 0 = Except.ok out
        ∧ out.length = 1) := by
  constructor
  · exact (C7_grid_mismatch_amended gEx (3, 3) [] 0).1.mpr (by decide)
  · refine (C7_grid_mismatch_amended gEx (4, 4) [hEx] 0).2.2.1 rfl ?_
    intro h hh
    rw [List.mem_singleton] at hh
    subst hh
    obtain ⟨k, _, hr⟩ := perHullRecord_ok gEx 0 hEx (by decide) (by decide)
    exact ⟨_, hr⟩

/-! ## Claim C10 -/

/-- C10 counterexample: a hull whose key is at or before the start time is not
always scored: on a matching-shape grid with zero valid cells the scorer
raises the zero-size-reduction ValueError and emits no record at all. -/
theorem C10_all_invalid_crash_counterexample :
    hNv.key - 5 ≤ 0
    ∧ gridShape gNoValid = (2, 2)
    ∧ calc_cohen_kappa_for_case gNoValid (2, 2) [hNv] 5 =
        Except.error (CaseErr.valueError ScoreErr.emptyReduction) := by
  refine ⟨by norm_num [hNv], rfl, ?_⟩
  have hnone : ∀ c ∈ gNoValid.flatten, c = none := by decide
  have hsimnil : maskedLabels (burntMask gNoValid (hNv.key - 5)) (validMask gNoValid) = [] :=
    maskedLabels_nil_of_valid_false _ _ (validMask_all_false gNoValid hnone)
  have hph : perHullRecord gNoValid 5 hNv = Except.error ScoreErr.emptyReduction := by
    unfold perHullRecord
    rw [hsimnil]
    rfl
  have hL : List.insertionSort (fun a b : ObsHull => a.key ≤ b.key) [hNv] = [hNv] := rfl
  have hs : scoreHulls gNoValid 5 [hNv] = Except.error ScoreErr.emptyReduction := by
    unfold scoreHulls
    rw [hph]
  unfold calc_cohen_kappa_for_case
  rw [if_neg (by decide : ¬gridShape gNoValid ≠ (2, 2)), hL, hs]

/-- C10 amended: for a hull whose key timestamp is at or before the start
time, provided the simulated grid has at least one valid cell and every hull
raster is grid-sized, the scorer still emits a full record rather than
skipping or erroring: the elapsed time is the nonpositive difference, the
simulated mask is entirely unburned, the realized cutoff is NaN (none), the
hull raster is scored against the all-zero simulated label vector, and the
record appears in the ok output; with zero valid cells the scorer raises the
zero-size-reduction ValueError instead, as the counterexample shows. -/
theorem C10_nonpositive_elapsed_amended (g : ToaGrid) (refShape : ℕ × ℕ)
    (hulls : List ObsHull) (t0 : ℚ) (h : ObsHull) (hshape : gridShape g = refShape)
    (hmem : h ∈ hulls) (hle : h.key - t0 ≤ 0)
    (hval : true ∈ (validMask g).flatten)
    (hras : ∀ h2 ∈ hulls, h2.raster.flatten.length = g.flatten.length) :
    ∃ r, perHullRecord g t0 h = Except.ok r
      ∧ r.timeViirs = h.key - t0
      ∧ r.timeSimu = none
      ∧ (∀ row ∈ burntMask g (h.key - t0), ∀ b ∈ row, b = false)
      ∧ (∃ n, maskedLabels (burntMask g (h.key - t0)) (validMask g) = List.replicate n false
          ∧ recordedKappa (maskedLabels h.raster (validMask g)) (List.replicate n false) =
              Except.ok r.kappa)
      ∧ (∃ out, calc_cohen_kappa_for_case g refShape hulls t0 = Except.ok out
          ∧ r ∈ out) := by
  have hfalse := burntMask_nonpos g (h.key - t0) hle
  obtain ⟨k, hk, hr⟩ := perHullRecord_ok g t0 h hval (hras h hmem)
  refine ⟨⟨k, simTimeRealized g (h.key - t0), h.key - t0⟩, hr, rfl,
    simTimeRealized_nonpos g _ hle, hfalse, ?_, ?_⟩
  · refine ⟨(maskedLabels (burntMask g (h.key - t0)) (validMask g)).length,
      maskedLabels_all_false _ _ hfalse, ?_⟩
    show recordedKappa (maskedLabels h.raster (validMask g))
        (List.replicate (maskedLabels (burntMask g (h.key - t0)) (validMask g)).length false) =
      Except.ok k
    rw [← maskedLabels_all_false _ _ hfalse]
    exact hk
  · have hall2 : ∀ h2 ∈ List.insertionSort (fun a b : ObsHull => a.key ≤ b.key) hulls,
        ∃ r2, perHullRecord g t0 h2 = Except.ok r2 := by
      intro h2 hh2
      have hm2 := (List.perm_insertionSort _ hulls).mem_iff.mp hh2
      obtain ⟨k2, _, hr2⟩ := perHullRecord_ok g t0 h2 hval (hras h2 hm2)
      exact ⟨_, hr2⟩
    obtain ⟨out, hout, _, hmemout⟩ := scoreHulls_ok_of_all g t0 _ hall2
    refine ⟨out, ?_, ?_⟩
    · unfold calc_cohen_kappa_for_case
      rw [if_neg (not_not_intro hshape), hout]
    · exact hmemout h ((List.perm_insertionSort _ hulls).mem_iff.mpr hmem) _ hr

/-- Witness for C10 amended at a concrete valid grid and early hull. -/
theorem C10_nonpositive_elapsed_amended_witness :
    ∃ r, perHullRecord gEx 5 hEx = Except.ok r ∧ r.timeSimu = none
      ∧ r.timeViirs = -3 := by
  obtain ⟨r, hr, htv, hts, _⟩ := C10_nonpositive_elapsed_amended gEx (4, 4) [hEx] 5 hEx rfl
    (by simp) (by norm_num [hEx]) (by decide)
    (fun h2 hh2 => by
      rw [List.mem_singleton] at hh2
      subst hh2
      decide)
  refine ⟨r, hr, hts, ?_⟩
  rw [htv]
  norm_num [hEx]

/-! ## Claim C4 -/

/-- C4 counterexample: the start string with a trailing PDT token on 2020-01-01
is localized by the resolved zone rules of the date, which is standard time
(UTC-8), so the UTC result is 17:00Z and not the claimed 16:00Z. -/
theorem C4_pdt_offset_counterexample :
    parse_start_to_utc ⟨2020, 1, 1, 9, 0⟩ (some TZTok.pdt) = epochMinutes ⟨2020, 1, 1, 17, 0⟩
    ∧ parse_start_to_utc ⟨2020, 1, 1, 9, 0⟩ (some TZTok.pdt) ≠
        epochMinutes ⟨2020, 1, 1, 16, 0⟩ := by
  decide

/-- C4 amended: the recognized trailing token is stripped and the naive
remainder is localized in the resolved zone and normalized to UTC, but the
PDT token on 2020-01-01 09:00 yields 2020-01-01T17:00:00Z (a +8 hour offset,
standard time): tokens mapping to UTC add nothing, tokens mapping to
America/Los_Angeles add 420 or 480 minutes according to the daylight rule for
the date itself, and the PST and PDT tokens behave identically. -/
theorem C4_start_time_parse_amended :
    parse_start_to_utc ⟨2020, 1, 1, 9, 0⟩ (some TZTok.pdt) = epochMinutes ⟨2020, 1, 1, 17, 0⟩
    ∧ (∀ (dt : NaiveDT) (tok : TZTok), tz_map tok = TZName.utcZone →
        parse_start_to_utc dt (some tok) = epochMinutes dt)
    ∧ (∀ (dt : NaiveDT) (tok : TZTok), tz_map tok = TZName.losAngeles →
        parse_start_to_utc dt (some tok) =
          epochMinutes dt + (if laIsDST dt then 420 else 480))
    ∧ (∀ dt : NaiveDT, parse_start_to_utc dt (some TZTok.pdt) =
        parse_start_to_utc dt (some TZTok.pst))
    ∧ (∀ dt : NaiveDT, parse_start_to_utc dt none = epochMinutes dt) := by
  refine ⟨by decide, ?_, ?_, ?_, ?_⟩
  · intro dt tok htok
    show epochMinutes dt - utcOffsetMinutes (resolveZone (some tok)) dt = epochMinutes dt
    show epochMinutes dt - utcOffsetMinutes (tz_map tok) dt = epochMinutes dt
    rw [htok]
    show epochMinutes dt - 0 = epochMinutes dt
    omega
  · intro dt tok htok
    show epochMinutes dt - utcOffsetMinutes (tz_map tok) dt = _
    rw [htok]
    show epochMinutes dt - (if laIsDST dt then (-420 : ℤ) else -480) = _
    by_cases hd : laIsDST dt
    · rw [if_pos hd, if_pos hd]
      omega
    · rw [if_neg hd, if_neg hd]
      omega
  · intro dt
    rfl
  · intro dt
    show epochMinutes dt - 0 = epochMinutes dt
    omega

/-- Witness for C4 amended at concrete dates inside and outside daylight time. -/
theorem C4_start_time_parse_amended_witness :
    parse_start_to_utc ⟨2020, 1, 1, 9, 0⟩ (some TZTok.utc) = epochMinutes ⟨2020, 1, 1, 9, 0⟩
    ∧ parse_start_to_utc ⟨2017, 10, 8, 21, 45⟩ (some TZTok.pst) =
        epochMinutes ⟨2017, 10, 8, 21, 45⟩ + 420 := by
  constructor
  · exact C4_start_time_parse_amended.2.1 ⟨2020, 1, 1, 9, 0⟩ TZTok.utc rfl
  · have h := C4_start_time_parse_amended.2.2.1 ⟨2017, 10, 8, 21, 45⟩ TZTok.pst rfl
    rw [h, if_pos (by decide : laIsDST ⟨2017, 10, 8, 21, 45⟩ = true)]

/-! ## Claim C5 -/

/-- C5 counterexample: across a month boundary the cohort index built from the
day of month is not chronological and not injective on half-day windows:
2017-11-01 00:00 has index 2 while the chronologically earlier 2017-10-31 23:00
has index 63, and 2017-10-05 and 2017-11-05 lie in distinct half-day windows
yet share index 10. -/
theorem C5_cohort_index_counterexample :
    half_day ⟨2017, 11, 1, 0, 0⟩ < half_day ⟨2017, 10, 31, 23, 0⟩
    ∧ globalHalfDay ⟨2017, 10, 31, 23, 0⟩ < globalHalfDay ⟨2017, 11, 1, 0, 0⟩
    ∧ globalHalfDay ⟨2017, 10, 5, 0, 0⟩ ≠ globalHalfDay ⟨2017, 11, 5, 0, 0⟩
    ∧ half_day ⟨2017, 10, 5, 0, 0⟩ = half_day ⟨2017, 11, 5, 0, 0⟩ := by
  decide

/-- C5 amended: within a single calendar month (equal year and month) the
cohort index is chronological and injective on half-day windows: the index
order coincides with the window order, and distinct windows receive distinct
indices.  Across month boundaries this fails, as the counterexample shows. -/
theorem C5_cohort_index_amended (t1 t2 : NaiveDT) (hy : t1.year = t2.year)
    (hm : t1.month = t2.month) :
    (half_day t1 < half_day t2 ↔ globalHalfDay t1 < globalHalfDay t2)
    ∧ (globalHalfDay t1 ≠ globalHalfDay t2 → half_day t1 ≠ half_day t2) := by
  have hd1 : daysFromCivil t1.year t1.month t1.day = civilBase t1.year t1.month + t1.day := rfl
  have hd2 : daysFromCivil t2.year t2.month t2.day = civilBase t2.year t2.month + t2.day := rfl
  unfold half_day globalHalfDay
  rw [hd1, hd2, hy, hm]
  omega

/-- Witness for C5 amended at two timestamps of the same day. -/
theorem C5_cohort_index_amended_witness :
    half_day ⟨2017, 10, 9, 3, 0⟩ < half_day ⟨2017, 10, 9, 15, 0⟩
    ∧ globalHalfDay ⟨2017, 10, 9, 3, 0⟩ < globalHalfDay ⟨2017, 10, 9, 15, 0⟩ := by
  have h := C5_cohort_index_amended ⟨2017, 10, 9, 3, 0⟩ ⟨2017, 10, 9, 15, 0⟩ rfl rfl
  have hhd : half_day ⟨2017, 10, 9, 3, 0⟩ < half_day ⟨2017, 10, 9, 15, 0⟩ := by decide
  exact ⟨hhd, h.1.mp hhd⟩

/-! ## Claim C6 -/

/-- C6 counterexample: with three accumulated points and a concave call that
returns an empty zero-area polygon, the selection logic keeps that result
unchanged; it does not fall back to the (nonempty) convex hull, with or
without the repair step. -/
theorem C6_concave_fallback_counterexample :
    hull_for_cohort bufEx cvxTri 3 (ConcaveOutcome.ok egEmpty) = egEmpty
    ∧ egEmpty.isEmpty = true
    ∧ egEmpty.area = 0
    ∧ hull_for_cohort bufEx cvxTri 3 (ConcaveOutcome.ok egEmpty) ≠ cvxTri
    ∧ hull_for_cohort bufEx cvxTri 3 (ConcaveOutcome.ok egEmpty) ≠
        ensure_polygonal bufEx cvxTri := by
  refine ⟨rfl, rfl, rfl, ?_, ?_⟩
  · intro hc
    have : egEmpty = cvxTri := hc
    simp [egEmpty, cvxTri] at this
  · intro hc
    have : egEmpty = ensure_polygonal bufEx cvxTri := hc
    simp [egEmpty, cvxTri, ensure_polygonal, bufEx] at this

/-- C6 amended: the convex hull is used when fewer than three points have
accumulated or when the concave construction throws; otherwise the concave
result is used as-is, even when empty or area-free; the repair step buffers
only Point and LineString geometries and leaves everything else unchanged. -/
theorem C6_hull_policy_amended (buffer : Geom → Geom) (convex g : Geom)
    (n : ℕ) (res : ConcaveOutcome) :
    (n < 3 → hull_for_cohort buffer convex n res = ensure_polygonal buffer convex)
    ∧ (3 ≤ n → hull_for_cohort buffer convex n ConcaveOutcome.throws =
        ensure_polygonal buffer convex)
    ∧ (3 ≤ n → hull_for_cohort buffer convex n (ConcaveOutcome.ok g) =
        ensure_polygonal buffer g)
    ∧ ((g.gtype = GType.point ∨ g.gtype = GType.lineString) →
        ensure_polygonal buffer g = buffer g)
    ∧ (g.gtype ≠ GType.point → g.gtype ≠ GType.lineString →
        ensure_polygonal buffer g = g) := by
  refine ⟨?_, ?_, ?_, ?_, ?_⟩
  · intro hn
    unfold hull_for_cohort
    rw [if_pos hn]
  · intro hn
    unfold hull_for_cohort
    rw [if_neg (Nat.not_lt.mpr hn)]
  · intro hn
    unfold hull_for_cohort
    rw [if_neg (Nat.not_lt.mpr hn)]
  · intro hg
    unfold ensure_polygonal
    rw [if_pos hg]
  · intro hp hl
    unfold ensure_polygonal
    rw [if_neg (by tauto)]

/-- Witness for C6 amended at concrete geometries. -/
theorem C6_hull_policy_amended_witness :
    hull_for_cohort bufEx cvxTri 2 (ConcaveOutcome.ok egEmpty) = cvxTri
    ∧ hull_for_cohort bufEx cvxTri 3 ConcaveOutcome.throws = cvxTri := by
  have hcv : ensure_polygonal bufEx cvxTri = cvxTri :=
    (C6_hull_policy_amended bufEx cvxTri cvxTri 3 ConcaveOutcome.throws).2.2.2.2
      (by simp [cvxTri]) (by simp [cvxTri])
  have h1 := (C6_hull_policy_amended bufEx cvxTri egEmpty 2 (ConcaveOutcome.ok egEmpty)).1
    (by norm_num)
  have h2 := (C6_hull_policy_amended bufEx cvxTri egEmpty 3
    (ConcaveOutcome.ok egEmpty)).2.1 (le_refl 3)
  exact ⟨h1.trans hcv, h2.trans hcv⟩

/-! ## Claim C8 -/

/-- C8 counterexample: when detection files exist but every record is invalid
or geometry-less, the loader returns an empty detection set with no error: a
single file whose only record lacks geometry, and a file pair of one
empty-geometry and one geometry-less record, both yield ok with the empty list. -/
theorem C8_loader_empty_counterexample :
    load_viirs_points [[⟨false, true⟩]] = Except.ok []
    ∧ load_viirs_points [[⟨true, true⟩, ⟨false, false⟩]] = Except.ok [] := by
  exact ⟨rfl, rfl⟩

/-- C8 amended: the loader errors exactly when there are no detection files at
all (the missing-files kind); when files exist it returns an ok detection set,
possibly empty, in which every record carries a nonempty geometry. -/
theorem C8_loader_amended (files : List (List ViirsRec)) :
    ((∃ e, load_viirs_points files = Except.error e) ↔ files = [])
    ∧ (files = [] → load_viirs_points files = Except.error LoadErr.noShapefiles)
    ∧ (∀ recs, load_viirs_points files = Except.ok recs →
        ∀ r ∈ recs, r.hasGeom = true ∧ r.emptyGeom = false) := by
  unfold load_viirs_points
  by_cases hf : files.isEmpty
  · rw [if_pos hf]
    refine ⟨⟨fun _ => List.isEmpty_iff.mp hf, fun _ => ⟨_, rfl⟩⟩, fun _ => rfl, ?_⟩
    intro recs h
    exact Except.noConfusion h
  · rw [if_neg hf]
    refine ⟨⟨?_, ?_⟩, ?_, ?_⟩
    · rintro ⟨e, he⟩
      by_cases hg : (viirsConcat files).isEmpty
      · rw [if_pos hg] at he
        exact Except.noConfusion he
      · rw [if_neg hg] at he
        exact Except.noConfusion he
    · intro hc
      exact absurd (List.isEmpty_iff.mpr hc) hf
    · intro hc
      exact absurd (List.isEmpty_iff.mpr hc) hf
    · intro recs h
      by_cases hg : (viirsConcat files).isEmpty
      · rw [if_pos hg] at h
        cases Except.ok.inj h
        intro r hr
        rw [List.isEmpty_iff.mp hg] at hr
        exact absurd hr (List.not_mem_nil r)
      · rw [if_neg hg] at h
        cases Except.ok.inj h
        intro r hr
        have hfil := List.of_mem_filter hr
        rw [Bool.and_eq_true] at hfil
        refine ⟨hfil.1, ?_⟩
        simpa using hfil.2

/-- Witness for C8 amended on the empty directory and a valid-record file. -/
theorem C8_loader_amended_witness :
    load_viirs_points ([] : List (List ViirsRec)) = Except.error LoadErr.noShapefiles
    ∧ (⟨true, false⟩ : ViirsRec).hasGeom = true := by
  constructor
  · exact (C8_loader_amended []).2.1 rfl
  · exact ((C8_loader_amended [[⟨true, false⟩]]).2.2 [⟨true, false⟩] rfl
      ⟨true, false⟩ (by simp)).1
